import Mathlib

/-!
Verification of the Oracle fixed-bug-list extractor.

The repository holds two Python scripts:
* `parse_bugs.py` (the minimal variant): scans a directory for `*.zip`
  archives, sorts them by an embedded version token, reads every member
  named `...inventory.xml`, and emits a consolidated fixed-bug report.
* `parse_bugs_old.py` (the old variant): same pipeline with explicit
  error handling (corrupt archives skipped, XML parse failures caught,
  bug entries without a `number` attribute dropped, write failure exits
  with status 1).

The embedding below models strings as Lean `String`s (lists of
characters), archives and descriptors as inductive data (the descriptor
is abstracted to its parse outcome, since the XML library itself is
outside the repository: a descriptor is either malformed or a
well-formed document exposing the `patch_description` element's text and
the list of `bug` elements with their `number` / `description`
attributes).  The filesystem interaction is abstracted to the directory
listing (the `glob` result, in filesystem order) and a boolean saying
whether the final write succeeds; the current date is a parameter.
-/

set_option maxRecDepth 4000

namespace OracleBugs

/-! ### Character-list utilities (Python string operations) -/

/-- Boolean test that `p` is a leading segment of `s`. -/
def beginsWith : List Char → List Char → Bool
  | [], _ => true
  | _ :: _, [] => false
  | c :: cs, d :: ds => if c = d then beginsWith cs ds else false

/-- Test that `p.data` is a leading segment of `s.data` (Python `startswith`). -/
def strBegins (p s : String) : Bool := beginsWith p.data s.data

/-- Test that `suf` is a trailing segment of `s` (Python `endswith`). -/
def strEnds (suf s : String) : Bool := beginsWith suf.data.reverse s.data.reverse

/-- Part of the string after the first occurrence of `pat`, if any
(`s.split(pat, 1)[1]` when `pat in s`). -/
def findSubSuffix (pat : List Char) : List Char → Option (List Char)
  | [] => if beginsWith pat [] then some [] else none
  | c :: cs =>
    if beginsWith pat (c :: cs) then some ((c :: cs).drop pat.length)
    else findSubSuffix pat cs

/-- Python `os.path.basename`: everything after the last `/`. -/
def basename (s : String) : String := ⟨(s.data.reverse.takeWhile (fun c => c ≠ '/')).reverse⟩

/-- The root part of `os.path.splitext` applied to a base name: cut at the
last dot, unless every character before that dot is itself a dot
(CPython's rule for leading dots). -/
def splitextRoot (b : String) : String :=
  let r := b.data.reverse
  let ext := r.takeWhile (fun c => c ≠ '.')
  if ext.length = r.length then b
  else
    let beforeRev := r.drop (ext.length + 1)
    if beforeRev.all (fun c => c = '.') then b
    else ⟨beforeRev.reverse⟩

/-- Python `name.split("RU_", 1)[1] if "RU_" in name else name`. -/
def afterMarker (s : String) : String :=
  match findSubSuffix "RU_".data s.data with
  | some suf => ⟨suf⟩
  | none => s

/-- Maximal decimal-digit runs of a character list, as numbers
(`[int(p) for p in re.split(r"[^\d]+", s) if p.isdigit()]`). -/
def digitRunsAux : List Char → Option Nat → List Nat
  | [], none => []
  | [], some n => [n]
  | c :: cs, acc =>
    if c.isDigit then digitRunsAux cs (some (acc.getD 0 * 10 + (c.toNat - 48)))
    else
      match acc with
      | none => digitRunsAux cs none
      | some n => n :: digitRunsAux cs none

def digitRuns (s : String) : List Nat := digitRunsAux s.data none

/-! ### The version key (`_version_key` in both scripts) -/

/-- The function `_version_key`: strip directory and extension, take the part after the
first `"RU_"` (or the whole base name), and pair the list of embedded
numbers with the token itself. -/
def pyVersionKey (path : String) : List Nat × String :=
  let name := splitextRoot (basename path)
  let version := afterMarker name
  (digitRuns version, version)

/-- Python `list`/`tuple` `<` on integer lists (lexicographic). -/
def natListLt : List Nat → List Nat → Bool
  | [], [] => false
  | [], _ :: _ => true
  | _ :: _, [] => false
  | a :: as, b :: bs => if a < b then true else if b < a then false else natListLt as bs

/-- Python `str` `<` (lexicographic by code point). -/
def charListLt : List Char → List Char → Bool
  | [], [] => false
  | [], _ :: _ => true
  | _ :: _, [] => false
  | a :: as, b :: bs =>
    if a.toNat < b.toNat then true
    else if b.toNat < a.toNat then false
    else charListLt as bs

/-- Python `<` on the sort keys produced by `_version_key`. -/
def keyLt (k1 k2 : List Nat × String) : Bool :=
  natListLt k1.1 k2.1 || (k1.1 == k2.1 && charListLt k1.2.data k2.2.data)

/-! ### The directory model and stable sorting (`sorted(..., key=_version_key)`) -/

/-- A bug element of the descriptor: the `number` and `description`
attributes, each possibly absent. -/
structure BugElem where
  number : Option String
  description : Option String
deriving DecidableEq

/-- A descriptor, abstracted to its XML parse outcome.  `patchDesc` is the
result of `root.find('patch_description')`: `none` when the element is
absent, `some t` when present with text `t` (`t = none` models a Python
`None` text).  `bugs` is `root.findall('.//bug')` in document order. -/
inductive XmlDoc where
  | malformed (msg : String)
  | doc (patchDesc : Option (Option String)) (bugs : List BugElem)
deriving DecidableEq

/-- An archive on disk: either not a valid ZIP container, or a list of
members (name, descriptor bytes).  Only members whose names end with
`inventory.xml` are ever read, so member contents are modelled as
descriptors. -/
inductive ZipFile where
  | corrupt
  | ok (members : List (String × XmlDoc))
deriving DecidableEq

/-- Stable insertion of one directory entry into a key-sorted list. -/
def insertByKey (x : String × ZipFile) : List (String × ZipFile) → List (String × ZipFile)
  | [] => [x]
  | y :: ys =>
    if keyLt (pyVersionKey x.1) (pyVersionKey y.1) then x :: y :: ys
    else y :: insertByKey x ys

/-- Python `sorted(glob.glob(...), key=_version_key)`: stable ascending sort of
the directory listing by version key. -/
def sortByKey (l : List (String × ZipFile)) : List (String × ZipFile) :=
  l.foldl (fun acc x => insertByKey x acc) []

/-! ### Shared pieces of both report builders -/

def headerLine (displayName : String) : String := "### RU " ++ displayName ++ "\n"

def descLine (patchText : String) : String := " *** " ++ patchText ++ "\n"

def bugLine (number description : String) : String :=
  "     BUG " ++ number ++ " - " ++ description ++ "\n"

/-- Rendering of a Python value that is either a string or `None` inside
an f-string. -/
def pyStr : Option String → String
  | none => "None"
  | some s => s

/-- Python `patch_desc.text if patch_desc is not None else ""`. -/
def patchTextOf (pd : Option (Option String)) : Option String :=
  match pd with
  | none => some ""
  | some t => t

/-- Python truthiness of a string-or-`None` value. -/
def pyTruthy : Option String → Bool
  | none => false
  | some s => s != ""

/-- Python whitespace for `\s` (ASCII fragment). -/
def isPySpace (c : Char) : Bool :=
  c = ' ' || c = '\t' || c = '\n' || c = '\r' || c = '\x0b' || c = '\x0c'

def isVerChar (c : Char) : Bool := c.isDigit || c = '.'

/-- Match of `Database Release Update\s*:\s*([\d.]+)` anchored at the head
of the character list, returning the capture. -/
def matchDbAt (s : List Char) : Option String :=
  let lit := "Database Release Update".data
  if beginsWith lit s then
    let r1 := (s.drop lit.length).dropWhile isPySpace
    match r1 with
    | ':' :: r2 =>
      let r3 := r2.dropWhile isPySpace
      let cap := r3.takeWhile isVerChar
      if cap.isEmpty then none else some ⟨cap⟩
    | _ => none
  else none

def findDbAux : List Char → Option String
  | [] => none
  | c :: cs =>
    match matchDbAt (c :: cs) with
    | some v => some v
    | none => findDbAux cs

/-- Python `re.search(r'Database Release Update\s*:\s*([\d.]+)', s)`: leftmost
match's capture group.  (The literal, `\s`, `:` and `[\d.]` character
classes are pairwise disjoint, so the greedy scan needs no backtracking;
an empty-position match of the literal is also checked.) -/
def findDbVersion (s : String) : Option String :=
  match matchDbAt s.data with
  | some v => some v
  | none => findDbAux s.data

/-- The `Fixed_Bug_For_<version>_<date>.txt` / `Fixed_Bug_<date>.txt` naming,
shared verbatim by both scripts. -/
def resolveName (output_file : Option String) (today : String) (ldb : Option String) : String :=
  match output_file with
  | some n => n
  | none =>
    match ldb with
    | some v => "Fixed_Bug_For_" ++ v ++ "_" ++ today ++ ".txt"
    | none => "Fixed_Bug_" ++ today ++ ".txt"

/-! ### The minimal variant (`parse_bugs.py`)

No error handling: a corrupt archive or malformed descriptor raises,
which is modelled by `Except.error`.  Bug entries are not filtered on the
`number` attribute: a missing attribute is rendered `None` and the key
`none` enters the seen-dict. -/

structure NewState where
  output_lines : List String
  bug_positions : List (Option String)
  last_db_version : Option String
deriving DecidableEq

def initNew : NewState := ⟨[], [], none⟩

/-- Body of the `for bug in root.findall('.//bug')` loop of
`parse_bugs.py` (lines 76-87). -/
def processBugNew (st : NewState) (b : BugElem) : NewState :=
  let number := b.number
  let description := b.description.getD ""
  if st.bug_positions.contains number then st
  else
    { output_lines := st.output_lines ++ [bugLine (pyStr number) description]
      bug_positions := st.bug_positions ++ [number]
      last_db_version := st.last_db_version }

/-- Handling of one `inventory.xml` member in `parse_bugs.py`
(lines 52-87): parse (raising on malformed input), then emit the
header/description block and the deduplicated bug lines when the patch
description text is truthy. -/
def processInvNew (zip_file : String) (st : NewState) (x : XmlDoc) : Except String NewState :=
  match x with
  | .malformed e => .error e
  | .doc pd bugs =>
    match patchTextOf pd with
    | none => .ok st
    | some pt =>
      if pt = "" then .ok st
      else
        let display_name := afterMarker (splitextRoot (basename zip_file))
        let st1 : NewState :=
          { st with output_lines := st.output_lines ++ [headerLine display_name, descLine pt] }
        let st2 : NewState :=
          match findDbVersion pt with
          | some v => { st1 with last_db_version := some v }
          | none => st1
        .ok (bugs.foldl processBugNew st2)

/-- One archive of the `for zip_file in zip_files` loop (lines 45-87):
opening a corrupt archive raises `BadZipFile`; otherwise every member
whose name ends in `inventory.xml` is processed in archive order. -/
def processZipNew (st : NewState) (zf : String × ZipFile) : Except String NewState :=
  match zf.2 with
  | .corrupt => .error "BadZipFile"
  | .ok members =>
    (members.filter (fun m => strEnds "inventory.xml" m.1)).foldlM
      (fun s m => processInvNew zf.1 s m.2) st

/-- Function `parse_bugs_from_zip` of `parse_bugs.py`: the whole run up to (but not
including) the final file write, returning the chosen output name and the
accumulated lines.  `dir` is the directory listing produced by
`glob.glob(f"{zip_path}/*.zip")`, `today` the formatted current date. -/
def parse_bugs_from_zip (dir : List (String × ZipFile)) (output_file : Option String)
    (today : String) : Except String (String × List String) :=
  match (sortByKey dir).foldlM processZipNew initNew with
  | .error e => .error e
  | .ok st => .ok (resolveName output_file today st.last_db_version, st.output_lines)

/-- Exit status of running `parse_bugs.py` as a script: an uncaught
exception (corrupt archive, malformed descriptor, or failing write —
`writeOk` models the filesystem) terminates the interpreter with a
non-zero status, otherwise the status is zero. -/
def parse_bugs_main (dir : List (String × ZipFile)) (argName : Option String)
    (today : String) (writeOk : Bool) : Nat :=
  match parse_bugs_from_zip dir argName today with
  | .error _ => 1
  | .ok _ => if writeOk then 0 else 1

/-! ### The old variant (`parse_bugs_old.py`) -/

/-- The `bug.get('number')` / `bug.get('description')` handling of
`parse_bugs_from_xml_content` (lines 73-79): entries with a falsy
`number` are dropped, a missing description becomes `""`. -/
def keepBug (b : BugElem) : Option (String × String) :=
  match b.number with
  | none => none
  | some n => if n = "" then none else some (n, b.description.getD "")

/-- Function `parse_bugs_from_xml_content` (lines 36-92): parse failures are caught
and turned into `("", [])` plus a diagnostic; an empty `findall` result
warns; otherwise the filtered bug list is returned.  The second component
is the list of stderr messages the call prints. -/
def parse_bugs_from_xml_content (x : XmlDoc) (source_name : String) :
    (Option String × List (String × String)) × List String :=
  let src := if source_name = "" then "XML" else source_name
  match x with
  | .malformed e =>
    ((some "", []), ["Error: XML parsing failed for " ++ src ++ " - " ++ e])
  | .doc pd bugs =>
    let patch_text := patchTextOf pd
    if bugs.isEmpty then
      ((patch_text, []), ["Warning: No bug elements found in " ++ src ++ "."])
    else
      ((patch_text, bugs.filterMap keepBug), [])

/-- Body of the `for inv_file in inventory_files` collection loop of
`process_zip_files` (lines 119-126). -/
def scanMember (p : String) (acc : List (String × XmlDoc × String) × List String)
    (m : String × XmlDoc) : List (String × XmlDoc × String) × List String :=
  if strEnds "inventory.xml" m.1 then
    (acc.1 ++ [(p, m.2, splitextRoot (basename p))],
     acc.2 ++ ["Found inventory.xml in " ++ p ++ " (as " ++ m.1 ++ ")"])
  else acc

/-- Body of the `for zip_file in zip_files` loop of `process_zip_files`
(lines 112-133): a corrupt archive is caught and only warned about. -/
def scanZip (acc : List (String × XmlDoc × String) × List String) (zf : String × ZipFile) :
    List (String × XmlDoc × String) × List String :=
  match zf.2 with
  | .corrupt => (acc.1, acc.2 ++ ["Warning: " ++ zf.1 ++ " is not a valid ZIP file."])
  | .ok members => members.foldl (scanMember zf.1) acc

/-- Function `process_zip_files` (lines 95-135): scan the sorted archives, skip
corrupt ones with a warning, and collect
`(zip_file, xml_content, file_basename)` triples for every member ending
in `inventory.xml`.  Second component: stderr messages in print order. -/
def process_zip_files (dir : List (String × ZipFile)) :
    List (String × XmlDoc × String) × List String :=
  (sortByKey dir).foldl scanZip ([], [])

structure OldState where
  output_lines : List String
  bug_positions : List String
  total_bugs : Nat
  processed_count : Nat
  last_db_version : Option String
  diags : List String
deriving DecidableEq

def initOld : OldState := ⟨[], [], 0, 0, none, []⟩

/-- Body of the `for number, description in bug_list` loop of
`process_all_xml_files` (lines 183-192). -/
def processBugOld (st : OldState) (p : String × String) : OldState :=
  if st.bug_positions.contains p.1 then st
  else
    { st with
      output_lines := st.output_lines ++ [bugLine p.1 p.2]
      bug_positions := st.bug_positions ++ [p.1]
      total_bugs := st.total_bugs + 1 }

/-- Handling of one scanned descriptor in `process_all_xml_files`
(lines 164-195): parse, and when both the patch text and the extracted
bug list are non-empty, emit the block, track the sub-version and count
the file as processed. -/
def processXmlOld (st : OldState) (item : String × XmlDoc × String) : OldState :=
  let pr := parse_bugs_from_xml_content item.2.1 (item.1 ++ "/inventory.xml")
  let patch_text := pr.1.1
  let bug_list := pr.1.2
  let st0 : OldState := { st with diags := st.diags ++ pr.2 }
  if pyTruthy patch_text && !bug_list.isEmpty then
    let pt := patch_text.getD ""
    let display_name := afterMarker item.2.2
    let st1 : OldState :=
      { st0 with output_lines := st0.output_lines ++ [headerLine display_name, descLine pt] }
    let st2 : OldState :=
      match findDbVersion pt with
      | some v => { st1 with last_db_version := some v }
      | none => st1
    let st3 := bug_list.foldl processBugOld st2
    { st3 with
      processed_count := st3.processed_count + 1
      diags := st3.diags ++
        ["Processed " ++ item.1 ++ "/inventory.xml: " ++ toString bug_list.length ++
          " bugs found."] }
  else st0

structure OldRunResult where
  exitCode : Nat
  outName : Option String
  lines : List String
  diags : List String
deriving DecidableEq

/-- Function `process_all_xml_files` (lines 138-219) together with the script exit
status: returns early (status 0) when no descriptor was found, otherwise
builds the report, resolves the output name, and on a write failure
(`writeOk = false`) prints a diagnostic and exits with status 1. -/
def process_all_xml_files (dir : List (String × ZipFile)) (output_file : Option String)
    (today : String) (writeOk : Bool) : OldRunResult :=
  let pz := process_zip_files dir
  if pz.1.isEmpty then
    ⟨0, none, [], pz.2 ++ ["Warning: No ZIP files with inventory.xml found in the directory."]⟩
  else
    let st := pz.1.foldl processXmlOld initOld
    let name := resolveName output_file today st.last_db_version
    if writeOk then
      ⟨0, some name, st.output_lines,
        pz.2 ++ st.diags ++
          ["Results saved to " ++ name ++ " file.",
           "Processed " ++ toString st.processed_count ++ " file(s) with total " ++
             toString st.total_bugs ++ " unique bug items."]⟩
    else
      ⟨1, some name, st.output_lines,
        pz.2 ++ st.diags ++ ["Warning: Failed to save file - IOError"]⟩

/-! ### Specification-side descriptions

These definitions follow the spec's wording for the report builder
(first-occurrence deduplication over the concatenated bug lists, blocks
in ascending version order, last sub-version match wins) and are related
to the embedded code by the theorems below. -/

/-- First-occurrence filter: keep a pair only when its key has not been
seen before (the spec's seen-bug set). -/
def specDedupRem (seen : List String) : List (String × String) → List (String × String)
  | [] => []
  | p :: rest =>
    if seen.contains p.1 then specDedupRem seen rest
    else p :: specDedupRem (seen ++ [p.1]) rest

/-- The old variant's per-descriptor emission gate: non-empty patch text
and non-empty extracted bug list. -/
def gateOf (item : String × XmlDoc × String) : Bool :=
  let pr := parse_bugs_from_xml_content item.2.1 (item.1 ++ "/inventory.xml")
  pyTruthy pr.1.1 && !pr.1.2.isEmpty

/-- The bug pairs a scanned descriptor parses to. -/
def pairsOf (item : String × XmlDoc × String) : List (String × String) :=
  (parse_bugs_from_xml_content item.2.1 (item.1 ++ "/inventory.xml")).1.2

/-- The patch-description text a scanned descriptor parses to. -/
def textOf (item : String × XmlDoc × String) : String :=
  (parse_bugs_from_xml_content item.2.1 (item.1 ++ "/inventory.xml")).1.1.getD ""

/-- The display name of a scanned descriptor's archive. -/
def dispOf (item : String × XmlDoc × String) : String := afterMarker item.2.2

/-- Spec-side rendering of the old variant's report: one
header/description block per gated descriptor, followed by the bug lines
whose identifiers are new, threading the seen set left to right. -/
def specEmitOld (seen : List String) : List (String × XmlDoc × String) → List String
  | [] => []
  | item :: rest =>
    if gateOf item then
      headerLine (dispOf item) :: descLine (textOf item) ::
        ((specDedupRem seen (pairsOf item)).map (fun p => bugLine p.1 p.2) ++
          specEmitOld (seen ++ (specDedupRem seen (pairsOf item)).map Prod.fst) rest)
    else specEmitOld seen rest

/-- The keys the spec-side emission adds to the seen set, in order. -/
def specKeysOld (seen : List String) : List (String × XmlDoc × String) → List String
  | [] => []
  | item :: rest =>
    if gateOf item then
      (specDedupRem seen (pairsOf item)).map Prod.fst ++
        specKeysOld (seen ++ (specDedupRem seen (pairsOf item)).map Prod.fst) rest
    else specKeysOld seen rest

/-- Patch-description texts of the gated (processed) descriptors, in scan
order. -/
def specTexts (xs : List (String × XmlDoc × String)) : List String :=
  xs.filterMap (fun item => if gateOf item then some (textOf item) else none)

/-- Concatenation of the gated descriptors' bug pairs, in scan order. -/
def specAllPairs (xs : List (String × XmlDoc × String)) : List (String × String) :=
  xs.flatMap (fun item => if gateOf item then pairsOf item else [])

/-- Spec-side description of the old variant's scanner output: the
descriptor members of the valid archives, in sorted-archive order. -/
def specFound : List (String × ZipFile) → List (String × XmlDoc × String)
  | [] => []
  | (_, .corrupt) :: rest => specFound rest
  | (p, .ok ms) :: rest =>
    (ms.filter (fun m => strEnds "inventory.xml" m.1)).map
      (fun m => (p, m.2, splitextRoot (basename p))) ++ specFound rest

/-- Spec-side description of the scanner's diagnostics: one warning per
corrupt archive, one informational message per descriptor member. -/
def specScanDiags : List (String × ZipFile) → List String
  | [] => []
  | (p, .corrupt) :: rest =>
    ("Warning: " ++ p ++ " is not a valid ZIP file.") :: specScanDiags rest
  | (p, .ok ms) :: rest =>
    (ms.filter (fun m => strEnds "inventory.xml" m.1)).map
      (fun m => "Found inventory.xml in " ++ p ++ " (as " ++ m.1 ++ ")") ++ specScanDiags rest

/-! ### Lemmas: the bug-line loop implements first-occurrence dedup -/

theorem foldl_processBugOld (bl : List (String × String)) :
    ∀ st : OldState, bl.foldl processBugOld st =
      { st with
        output_lines := st.output_lines ++
          (specDedupRem st.bug_positions bl).map (fun p => bugLine p.1 p.2)
        bug_positions := st.bug_positions ++ (specDedupRem st.bug_positions bl).map Prod.fst
        total_bugs := st.total_bugs + (specDedupRem st.bug_positions bl).length } := by
  induction bl with
  | nil => intro st; simp [specDedupRem]
  | cons p bl ih =>
    intro st
    by_cases hmem : p.1 ∈ st.bug_positions
    · have hc : st.bug_positions.contains p.1 = true := by simpa using hmem
      have hstep : processBugOld st p = st := by simp [processBugOld, hmem]
      rw [List.foldl_cons, hstep, ih st]
      simp [specDedupRem, hmem, hc]
    · have hc : st.bug_positions.contains p.1 = false := by simpa using hmem
      have hstep : processBugOld st p =
        { st with
          output_lines := st.output_lines ++ [bugLine p.1 p.2]
          bug_positions := st.bug_positions ++ [p.1]
          total_bugs := st.total_bugs + 1 } := by
        simp [processBugOld, hmem]
      rw [List.foldl_cons, hstep, ih]
      simp only [specDedupRem, hc, Bool.false_eq_true, if_false]
      cases st
      simp [List.append_assoc]
      omega

/-- Update `last_db_version = match.group(1) if match else last_db_version`. -/
def overrideOpt (new old : Option String) : Option String :=
  match new with
  | some v => some v
  | none => old

theorem processXmlOld_spec (st : OldState) (item : String × XmlDoc × String) :
    (processXmlOld st item).output_lines = st.output_lines ++
      (if gateOf item then
        headerLine (dispOf item) :: descLine (textOf item) ::
          (specDedupRem st.bug_positions (pairsOf item)).map (fun p => bugLine p.1 p.2)
       else []) ∧
    (processXmlOld st item).bug_positions = st.bug_positions ++
      (if gateOf item then (specDedupRem st.bug_positions (pairsOf item)).map Prod.fst else []) ∧
    (processXmlOld st item).last_db_version =
      (if gateOf item then overrideOpt (findDbVersion (textOf item)) st.last_db_version
       else st.last_db_version) := by
  have hgd : gateOf item =
      (pyTruthy (parse_bugs_from_xml_content item.2.1 (item.1 ++ "/inventory.xml")).1.1 &&
        !(parse_bugs_from_xml_content item.2.1 (item.1 ++ "/inventory.xml")).1.2.isEmpty) := rfl
  by_cases hg : gateOf item = true
  · have hgz := hg
    rw [hgd] at hgz
    simp only [processXmlOld, hgz, if_true, foldl_processBugOld, hg]
    cases hdb : findDbVersion ((parse_bugs_from_xml_content item.2.1
        (item.1 ++ "/inventory.xml")).1.1.getD "") with
    | none => simp [textOf, pairsOf, dispOf, hdb, overrideOpt, List.append_assoc]
    | some v => simp [textOf, pairsOf, dispOf, hdb, overrideOpt, List.append_assoc]
  · have hg' : gateOf item = false := by
      cases h : gateOf item
      · rfl
      · exact absurd h hg
    have hgz := hg'
    rw [hgd] at hgz
    simp only [processXmlOld, hgz, Bool.false_eq_true, if_false, hg']
    simp

theorem overrideOpt_getLast_cons (v : String) (L : List String) (init : Option String) :
    overrideOpt ((v :: L).getLast?) init = overrideOpt L.getLast? (some v) := by
  cases L with
  | nil => simp [overrideOpt]
  | cons b L =>
    rw [List.getLast?_cons_cons]
    have hs : (b :: L).getLast?.isSome := by
      rw [List.getLast?_isSome]
      simp
    cases hw : (b :: L).getLast? with
    | none => rw [hw] at hs; simp at hs
    | some w => simp [overrideOpt]

theorem foldl_processXmlOld_spec (xs : List (String × XmlDoc × String)) :
    ∀ st : OldState,
      (xs.foldl processXmlOld st).output_lines =
        st.output_lines ++ specEmitOld st.bug_positions xs ∧
      (xs.foldl processXmlOld st).bug_positions =
        st.bug_positions ++ specKeysOld st.bug_positions xs ∧
      (xs.foldl processXmlOld st).last_db_version =
        overrideOpt ((specTexts xs).filterMap findDbVersion).getLast? st.last_db_version := by
  induction xs with
  | nil => intro st; simp [specEmitOld, specKeysOld, specTexts, overrideOpt]
  | cons item rest ih =>
    intro st
    obtain ⟨h1, h2, h3⟩ := processXmlOld_spec st item
    obtain ⟨i1, i2, i3⟩ := ih (processXmlOld st item)
    by_cases hg : gateOf item = true
    · rw [hg] at h1 h2 h3
      simp only [if_true] at h1 h2 h3
      refine ⟨?_, ?_, ?_⟩
      · rw [List.foldl_cons, i1, h1, h2]
        simp [specEmitOld, hg, List.append_assoc]
      · rw [List.foldl_cons, i2, h2]
        simp [specKeysOld, hg, List.append_assoc]
      · rw [List.foldl_cons, i3, h3]
        have ht : specTexts (item :: rest) = textOf item :: specTexts rest := by
          simp [specTexts, hg]
        rw [ht]
        cases hdb : findDbVersion (textOf item) with
        | none => simp [List.filterMap_cons, hdb, overrideOpt]
        | some v =>
          simp only [List.filterMap_cons, hdb]
          rw [overrideOpt_getLast_cons]
          simp [overrideOpt]
    · have hg' : gateOf item = false := by
        cases h : gateOf item
        · rfl
        · exact absurd h hg
      rw [hg'] at h1 h2 h3
      simp only [Bool.false_eq_true, if_false, List.append_nil] at h1 h2 h3
      refine ⟨?_, ?_, ?_⟩
      · rw [List.foldl_cons, i1, h1, h2]
        simp [specEmitOld, hg']
      · rw [List.foldl_cons, i2, h2]
        simp [specKeysOld, hg']
      · rw [List.foldl_cons, i3, h3]
        have ht : specTexts (item :: rest) = specTexts rest := by
          simp [specTexts, hg']
        rw [ht]

/-! ### Run-level characterizations of the old variant -/

theorem old_lines_eq (dir : List (String × ZipFile)) (o : Option String) (today : String)
    (w : Bool) :
    (process_all_xml_files dir o today w).lines = specEmitOld [] (process_zip_files dir).1 := by
  have hb := (foldl_processXmlOld_spec (process_zip_files dir).1 initOld).1
  simp only [initOld] at hb
  unfold process_all_xml_files
  by_cases h : (process_zip_files dir).1.isEmpty
  · have hnil : (process_zip_files dir).1 = [] := by simpa [List.isEmpty_iff] using h
    simp [h, hnil, specEmitOld]
  · cases w <;> simp [h, initOld, hb]

theorem old_name_eq (dir : List (String × ZipFile)) (o : Option String) (today : String)
    (w : Bool) :
    (process_all_xml_files dir o today w).outName =
      if (process_zip_files dir).1.isEmpty then none
      else some (resolveName o today
        (overrideOpt ((specTexts (process_zip_files dir).1).filterMap findDbVersion).getLast?
          none)) := by
  have hb := (foldl_processXmlOld_spec (process_zip_files dir).1 initOld).2.2
  have hinit : initOld.last_db_version = none := rfl
  rw [hinit] at hb
  unfold process_all_xml_files
  by_cases h : (process_zip_files dir).1.isEmpty
  · simp [h]
  · have hf : (process_zip_files dir).1.isEmpty = false := by
      cases hc : (process_zip_files dir).1.isEmpty
      · rfl
      · exact absurd hc h
    cases w <;>
      simp only [hf, Bool.false_eq_true, eq_self_iff_true, if_false, if_true] <;>
      rw [hb]

theorem old_exit_eq (dir : List (String × ZipFile)) (o : Option String) (today : String)
    (w : Bool) :
    (process_all_xml_files dir o today w).exitCode =
      if (process_zip_files dir).1.isEmpty then 0 else if w then 0 else 1 := by
  unfold process_all_xml_files
  by_cases h : (process_zip_files dir).1.isEmpty
  · simp [h]
  · cases w <;> simp [h]

theorem old_diags_fail (dir : List (String × ZipFile)) (o : Option String) (today : String) :
    (process_zip_files dir).1.isEmpty = false →
    (process_all_xml_files dir o today false).diags.getLast? =
      some "Warning: Failed to save file - IOError" := by
  intro h
  unfold process_all_xml_files
  simp only [h, Bool.false_eq_true, if_false]
  exact List.getLast?_concat _

/-! ### The scanner equals its spec-side description -/

theorem scanMember_fold (ms : List (String × XmlDoc)) (p : String) :
    ∀ acc : List (String × XmlDoc × String) × List String,
      ms.foldl (scanMember p) acc =
      (acc.1 ++ (ms.filter (fun m => strEnds "inventory.xml" m.1)).map
          (fun m => (p, m.2, splitextRoot (basename p))),
       acc.2 ++ (ms.filter (fun m => strEnds "inventory.xml" m.1)).map
          (fun m => "Found inventory.xml in " ++ p ++ " (as " ++ m.1 ++ ")")) := by
  induction ms with
  | nil => intro acc; simp
  | cons m ms ih =>
    intro acc
    by_cases hm : strEnds "inventory.xml" m.1 = true
    · simp [scanMember, hm, ih, List.append_assoc]
    · have hm' : strEnds "inventory.xml" m.1 = false := by
        cases h : strEnds "inventory.xml" m.1
        · rfl
        · exact absurd h hm
      simp [scanMember, hm', ih]

theorem scanZip_fold (l : List (String × ZipFile)) :
    ∀ acc : List (String × XmlDoc × String) × List String,
      l.foldl scanZip acc = (acc.1 ++ specFound l, acc.2 ++ specScanDiags l) := by
  induction l with
  | nil => intro acc; simp [specFound, specScanDiags]
  | cons zf l ih =>
    intro acc
    obtain ⟨p, z⟩ := zf
    cases z with
    | corrupt =>
      rw [List.foldl_cons]
      have hstep : scanZip acc (p, ZipFile.corrupt) =
          (acc.1, acc.2 ++ ["Warning: " ++ p ++ " is not a valid ZIP file."]) := rfl
      rw [hstep, ih]
      simp [specFound, specScanDiags, List.append_assoc]
    | ok ms =>
      rw [List.foldl_cons]
      have hstep : scanZip acc (p, ZipFile.ok ms) = ms.foldl (scanMember p) acc := rfl
      rw [hstep, scanMember_fold, ih]
      simp [specFound, specScanDiags, List.append_assoc]

theorem process_zip_files_spec (dir : List (String × ZipFile)) :
    process_zip_files dir =
      (specFound (sortByKey dir), specScanDiags (sortByKey dir)) := by
  unfold process_zip_files
  rw [scanZip_fold]
  simp

/-! ### Properties of the first-occurrence dedup -/

theorem specDedupRem_append (l1 l2 : List (String × String)) :
    ∀ seen, specDedupRem seen (l1 ++ l2) =
      specDedupRem seen l1 ++
        specDedupRem (seen ++ (specDedupRem seen l1).map Prod.fst) l2 := by
  induction l1 with
  | nil => intro seen; simp [specDedupRem]
  | cons p l1 ih =>
    intro seen
    by_cases h : p.1 ∈ seen
    · have hc : seen.contains p.1 = true := by simpa using h
      simp only [List.cons_append, specDedupRem, hc, if_true]
      exact ih seen
    · have hc : seen.contains p.1 = false := by simpa using h
      simp only [List.cons_append, specDedupRem, hc, Bool.false_eq_true, if_false,
        List.append_eq]
      rw [ih (seen ++ [p.1])]
      simp [List.append_assoc]

theorem specDedupRem_not_seen (l : List (String × String)) :
    ∀ seen k, k ∈ seen → k ∉ (specDedupRem seen l).map Prod.fst := by
  induction l with
  | nil => intro seen k _; simp [specDedupRem]
  | cons p l ih =>
    intro seen k hk
    by_cases h : p.1 ∈ seen
    · have hc : seen.contains p.1 = true := by simpa using h
      simp only [specDedupRem, hc, if_true]
      exact ih seen k hk
    · have hc : seen.contains p.1 = false := by simpa using h
      simp only [specDedupRem, hc, Bool.false_eq_true, if_false, List.map_cons,
        List.mem_cons]
      intro hor
      cases hor with
      | inl he => exact h (he ▸ hk)
      | inr hm => exact ih (seen ++ [p.1]) k (by simp [hk]) hm

theorem specDedupRem_keys_nodup (l : List (String × String)) :
    ∀ seen, ((specDedupRem seen l).map Prod.fst).Nodup := by
  induction l with
  | nil => intro seen; simp [specDedupRem]
  | cons p l ih =>
    intro seen
    by_cases h : p.1 ∈ seen
    · have hc : seen.contains p.1 = true := by simpa using h
      simp only [specDedupRem, hc, if_true]
      exact ih seen
    · have hc : seen.contains p.1 = false := by simpa using h
      simp only [specDedupRem, hc, Bool.false_eq_true, if_false, List.map_cons]
      refine List.nodup_cons.mpr ⟨?_, ih (seen ++ [p.1])⟩
      exact specDedupRem_not_seen l (seen ++ [p.1]) p.1 (by simp)

/-! ### Classification of output lines by their fixed markers -/

def isHeaderLine (s : String) : Bool := strBegins "### RU " s

def isDescLine (s : String) : Bool := strBegins " *** " s

def isBugLine (s : String) : Bool := strBegins "     BUG " s

theorem beginsWith_append_self (l r : List Char) : beginsWith l (l ++ r) = true := by
  induction l with
  | nil => simp [beginsWith]
  | cons c cs ih => simp [beginsWith, ih]

theorem strData_append (s t : String) : (s ++ t).data = s.data ++ t.data := by
  cases s
  cases t
  rfl

theorem headerLine_data (dn : String) :
    (headerLine dn).data = '#' :: '#' :: '#' :: ' ' :: 'R' :: 'U' :: ' ' ::
      (dn.data ++ ['\n']) := by
  have h : "### RU ".data = ['#', '#', '#', ' ', 'R', 'U', ' '] := rfl
  have hn : "\n".data = ['\n'] := rfl
  simp [headerLine, strData_append, h, hn]

theorem descLine_data (t : String) :
    (descLine t).data = ' ' :: '*' :: '*' :: '*' :: ' ' :: (t.data ++ ['\n']) := by
  have h : " *** ".data = [' ', '*', '*', '*', ' '] := rfl
  have hn : "\n".data = ['\n'] := rfl
  simp [descLine, strData_append, h, hn]

theorem bugLine_data (n d : String) :
    (bugLine n d).data = ' ' :: ' ' :: ' ' :: ' ' :: ' ' :: 'B' :: 'U' :: 'G' :: ' ' ::
      (n.data ++ (' ' :: '-' :: ' ' :: (d.data ++ ['\n']))) := by
  have h : "     BUG ".data = [' ', ' ', ' ', ' ', ' ', 'B', 'U', 'G', ' '] := rfl
  have hm : " - ".data = [' ', '-', ' '] := rfl
  have hn : "\n".data = ['\n'] := rfl
  simp [bugLine, strData_append, h, hm, hn]

theorem isHeaderLine_headerLine (dn : String) : isHeaderLine (headerLine dn) = true := by
  have h : "### RU ".data = ['#', '#', '#', ' ', 'R', 'U', ' '] := rfl
  rw [isHeaderLine, strBegins, headerLine_data, h]
  exact beginsWith_append_self ['#', '#', '#', ' ', 'R', 'U', ' '] _

theorem isDescLine_descLine (t : String) : isDescLine (descLine t) = true := by
  have h : " *** ".data = [' ', '*', '*', '*', ' '] := rfl
  rw [isDescLine, strBegins, descLine_data, h]
  exact beginsWith_append_self [' ', '*', '*', '*', ' '] _

theorem isBugLine_bugLine (n d : String) : isBugLine (bugLine n d) = true := by
  have h : "     BUG ".data = [' ', ' ', ' ', ' ', ' ', 'B', 'U', 'G', ' '] := rfl
  rw [isBugLine, strBegins, bugLine_data, h]
  exact beginsWith_append_self [' ', ' ', ' ', ' ', ' ', 'B', 'U', 'G', ' '] _

theorem isHeaderLine_descLine (t : String) : isHeaderLine (descLine t) = false := by
  rw [isHeaderLine, strBegins, descLine_data]
  simp [beginsWith]

theorem isHeaderLine_bugLine (n d : String) : isHeaderLine (bugLine n d) = false := by
  rw [isHeaderLine, strBegins, bugLine_data]
  simp [beginsWith]

theorem isDescLine_headerLine (dn : String) : isDescLine (headerLine dn) = false := by
  rw [isDescLine, strBegins, headerLine_data]
  simp [beginsWith]

theorem isDescLine_bugLine (n d : String) : isDescLine (bugLine n d) = false := by
  rw [isDescLine, strBegins, bugLine_data]
  simp [beginsWith]

theorem isBugLine_headerLine (dn : String) : isBugLine (headerLine dn) = false := by
  rw [isBugLine, strBegins, headerLine_data]
  simp [beginsWith]

theorem isBugLine_descLine (t : String) : isBugLine (descLine t) = false := by
  rw [isBugLine, strBegins, descLine_data]
  simp [beginsWith]

theorem strEnds_newline_append (x : String) : strEnds "\n" (x ++ "\n") = true := by
  have hn : "\n".data = ['\n'] := rfl
  rw [strEnds, strData_append, hn]
  simp [beginsWith]

theorem headerLine_ends_newline (dn : String) : strEnds "\n" (headerLine dn) = true :=
  strEnds_newline_append ("### RU " ++ dn)

theorem descLine_ends_newline (t : String) : strEnds "\n" (descLine t) = true :=
  strEnds_newline_append (" *** " ++ t)

theorem bugLine_ends_newline (n d : String) : strEnds "\n" (bugLine n d) = true :=
  strEnds_newline_append ("     BUG " ++ n ++ " - " ++ d)

/-! ### The bug lines of the report are the globally deduplicated pairs -/

theorem filter_isBug_map_bugLine (dd : List (String × String)) :
    (dd.map (fun p => bugLine p.1 p.2)).filter isBugLine =
      dd.map (fun p => bugLine p.1 p.2) := by
  refine List.filter_eq_self.mpr ?_
  intro a ha
  obtain ⟨p, _, hp⟩ := List.mem_map.mp ha
  exact hp ▸ isBugLine_bugLine p.1 p.2

theorem filter_isBug_specEmitOld (xs : List (String × XmlDoc × String)) :
    ∀ seen, (specEmitOld seen xs).filter isBugLine =
      (specDedupRem seen (specAllPairs xs)).map (fun p => bugLine p.1 p.2) := by
  induction xs with
  | nil => intro seen; simp [specEmitOld, specAllPairs, specDedupRem]
  | cons item rest ih =>
    intro seen
    by_cases hg : gateOf item = true
    · have hpairs : specAllPairs (item :: rest) = pairsOf item ++ specAllPairs rest := by
        simp [specAllPairs, hg]
      rw [hpairs, specDedupRem_append]
      simp only [specEmitOld, hg, if_true]
      rw [List.filter_cons_of_neg (by simp [isBugLine_headerLine]),
        List.filter_cons_of_neg (by simp [isBugLine_descLine]),
        List.filter_append, filter_isBug_map_bugLine, ih]
      simp
    · have hg' : gateOf item = false := by
        cases hh : gateOf item
        · rfl
        · exact absurd hh hg
      have hpairs : specAllPairs (item :: rest) = specAllPairs rest := by
        simp [specAllPairs, hg']
      rw [hpairs]
      simp only [specEmitOld, hg', Bool.false_eq_true, if_false]
      exact ih seen

/-! ### Block shape of the report -/

/-- The report is a sequence of blocks: a header line, one description
line, then bug lines; used to derive the line-sequence invariants. -/
inductive Chunked : List String → Prop where
  | nil : Chunked []
  | block (dn pt : String) (bl rest : List String)
      (hbl : ∀ l ∈ bl, isBugLine l = true ∧ isHeaderLine l = false ∧
        isDescLine l = false ∧ strEnds "\n" l = true)
      (hrest : Chunked rest) :
      Chunked (headerLine dn :: descLine pt :: (bl ++ rest))

theorem chunked_specEmitOld (xs : List (String × XmlDoc × String)) :
    ∀ seen, Chunked (specEmitOld seen xs) := by
  induction xs with
  | nil => intro seen; simpa [specEmitOld] using Chunked.nil
  | cons item rest ih =>
    intro seen
    by_cases hg : gateOf item = true
    · simp only [specEmitOld, hg, if_true]
      refine Chunked.block _ _ _ _ ?_ (ih _)
      intro l hl
      obtain ⟨p, _, hp⟩ := List.mem_map.mp hl
      exact hp ▸ ⟨isBugLine_bugLine p.1 p.2, isHeaderLine_bugLine p.1 p.2,
        isDescLine_bugLine p.1 p.2, bugLine_ends_newline p.1 p.2⟩
    · have hg' : gateOf item = false := by
        cases hh : gateOf item
        · rfl
        · exact absurd hh hg
      simp only [specEmitOld, hg', Bool.false_eq_true, if_false]
      exact ih seen

theorem chunked_newlines {ls : List String} (h : Chunked ls) :
    ∀ l ∈ ls, strEnds "\n" l = true := by
  induction h with
  | nil => intro l hl; simp at hl
  | block dn pt bl rest hbl hrest ih =>
    intro l hl
    rcases List.mem_cons.mp hl with h1 | hl
    · exact h1 ▸ headerLine_ends_newline dn
    rcases List.mem_cons.mp hl with h2 | hl
    · exact h2 ▸ descLine_ends_newline pt
    rcases List.mem_append.mp hl with h3 | h4
    · exact (hbl l h3).2.2.2
    · exact ih l h4

theorem chunked_head_not_desc {ls : List String} (h : Chunked ls) :
    ∀ u r, ls = u :: r → isDescLine u = false := by
  cases h with
  | nil => intro u r hu; simp at hu
  | block dn pt bl rest hbl hrest =>
    intro u r hu
    have : headerLine dn = u := (List.cons.injEq _ _ _ _ ▸ hu).1
    exact this ▸ isDescLine_headerLine dn

theorem chunked_header_desc {ls : List String} (h : Chunked ls) :
    ∀ pre l post, ls = pre ++ l :: post → isHeaderLine l = true →
      ∃ t post', post = t :: post' ∧ isDescLine t = true ∧
        (∀ u post'', post' = u :: post'' → isDescLine u = false) := by
  induction h with
  | nil =>
    intro pre l post heq _
    exact absurd heq.symm (by simp)
  | block dn pt bl rest hbl hrest ih =>
    intro pre l post heq hl
    cases pre with
    | nil =>
      simp only [List.nil_append] at heq
      obtain ⟨hl1, hl2⟩ := List.cons.inj heq
      refine ⟨descLine pt, bl ++ rest, hl2.symm ▸ rfl, isDescLine_descLine pt, ?_⟩
      intro u post'' hu
      cases bl with
      | nil =>
        simp only [List.nil_append] at hu
        exact chunked_head_not_desc hrest u post'' hu
      | cons b bl' =>
        have hb : b = u := (List.cons.inj (by simpa using hu)).1
        exact hb ▸ (hbl b (by simp)).2.2.1
    | cons a pre' =>
      obtain ⟨ha, heq2⟩ := List.cons.inj heq
      cases pre' with
      | nil =>
        obtain ⟨hl1, _⟩ := List.cons.inj (by simpa using heq2)
        rw [← hl1] at hl
        rw [isHeaderLine_descLine] at hl
        exact absurd hl (by simp)
      | cons a2 pre'' =>
        obtain ⟨_, heq3⟩ := List.cons.inj (by simpa using heq2)
        rcases List.append_eq_append_iff.mp heq3.symm with ⟨a', hc, hb⟩ | ⟨c', hpre, hd⟩
        · cases a' with
          | nil =>
            simp only [List.nil_append] at hb
            exact ih [] l post (by simpa using hb.symm) hl
          | cons x a'' =>
            obtain ⟨hx, _⟩ := List.cons.inj hb
            have hxbl : x ∈ bl := by
              rw [hc]
              simp
            rw [← hx] at hxbl
            have := (hbl l hxbl).2.1
            rw [this] at hl
            exact absurd hl (by simp)
        · exact ih c' l post hd hl

theorem chunked_bug_after_header {ls : List String} (h : Chunked ls) :
    ∀ pre l post, ls = pre ++ l :: post → isBugLine l = true →
      ∃ x ∈ pre, isHeaderLine x = true := by
  cases h with
  | nil =>
    intro pre l post heq _
    exact absurd heq.symm (by simp)
  | block dn pt bl rest hbl hrest =>
    intro pre l post heq hl
    cases pre with
    | nil =>
      obtain ⟨hl1, _⟩ := List.cons.inj (by simpa using heq)
      rw [← hl1] at hl
      rw [isBugLine_headerLine] at hl
      exact absurd hl (by simp)
    | cons a pre' =>
      obtain ⟨ha, _⟩ := List.cons.inj heq
      exact ⟨a, by simp, ha.symm ▸ isHeaderLine_headerLine dn⟩

/-! ### Helper lemmas for the minimal variant -/

theorem foldl_processBugNew_lines (bugs : List BugElem) :
    ∀ st : NewState, ∃ bl, (∀ l ∈ bl, isBugLine l = true) ∧
      (bugs.foldl processBugNew st).output_lines = st.output_lines ++ bl := by
  induction bugs with
  | nil => intro st; exact ⟨[], by simp, by simp⟩
  | cons b bugs ih =>
    intro st
    by_cases hm : b.number ∈ st.bug_positions
    · have hstep : processBugNew st b = st := by simp [processBugNew, hm]
      rw [List.foldl_cons, hstep]
      exact ih st
    · have hstep : processBugNew st b =
          { output_lines := st.output_lines ++ [bugLine (pyStr b.number) (b.description.getD "")]
            bug_positions := st.bug_positions ++ [b.number]
            last_db_version := st.last_db_version } := by
        simp [processBugNew, hm]
      rw [List.foldl_cons, hstep]
      obtain ⟨bl, hbl, hlines⟩ := ih
        { output_lines := st.output_lines ++ [bugLine (pyStr b.number) (b.description.getD "")]
          bug_positions := st.bug_positions ++ [b.number]
          last_db_version := st.last_db_version }
      refine ⟨bugLine (pyStr b.number) (b.description.getD "") :: bl, ?_, ?_⟩
      · intro l hl
        rcases List.mem_cons.mp hl with h1 | h2
        · exact h1 ▸ isBugLine_bugLine _ _
        · exact hbl l h2
      · simpa [List.append_assoc] using hlines

theorem processInvNew_truthy (zf : String) (pd : Option (Option String)) (bugs : List BugElem)
    (st : NewState) (pt : String) (h1 : patchTextOf pd = some pt) (h2 : pt ≠ "") :
    ∃ st' bl, processInvNew zf st (.doc pd bugs) = .ok st' ∧
      (∀ l ∈ bl, isBugLine l = true) ∧
      st'.output_lines = st.output_lines ++
        headerLine (afterMarker (splitextRoot (basename zf))) :: descLine pt :: bl := by
  simp only [processInvNew, h1, h2, if_false]
  cases hdb : findDbVersion pt with
  | none =>
    obtain ⟨bl, hbl, hlines⟩ := foldl_processBugNew_lines bugs
      { st with output_lines := st.output_lines ++
          [headerLine (afterMarker (splitextRoot (basename zf))), descLine pt] }
    exact ⟨_, bl, rfl, hbl, by simpa [List.append_assoc] using hlines⟩
  | some v =>
    obtain ⟨bl, hbl, hlines⟩ := foldl_processBugNew_lines bugs
      { output_lines := st.output_lines ++
          [headerLine (afterMarker (splitextRoot (basename zf))), descLine pt]
        bug_positions := st.bug_positions
        last_db_version := some v }
    exact ⟨_, bl, rfl, hbl, by simpa [List.append_assoc] using hlines⟩

theorem processInvNew_falsy (zf : String) (pd : Option (Option String)) (bugs : List BugElem)
    (st : NewState) (h : pyTruthy (patchTextOf pd) = false) :
    processInvNew zf st (.doc pd bugs) = .ok st := by
  cases hpt : patchTextOf pd with
  | none => simp [processInvNew, hpt]
  | some s =>
    rw [hpt] at h
    have hs : s = "" := by
      by_contra hne
      simp [pyTruthy, hne] at h
    simp [processInvNew, hpt, hs]

theorem parse_bugs_lines_today_free (dir : List (String × ZipFile)) (o : Option String)
    (t1 t2 : String) :
    (parse_bugs_from_zip dir o t1).map Prod.snd =
      (parse_bugs_from_zip dir o t2).map Prod.snd := by
  unfold parse_bugs_from_zip
  cases h : (sortByKey dir).foldlM processZipNew initNew <;> simp [h, Except.map]

/-! ### Order facts about the version key -/

theorem natListLt_irrefl (xs : List Nat) : natListLt xs xs = false := by
  induction xs with
  | nil => rfl
  | cons a as ih => simp [natListLt, ih]

theorem keyLt_nine_ten (p q : String) (h9 : (pyVersionKey p).1 = [9])
    (h10 : (pyVersionKey q).1 = [10]) :
    keyLt (pyVersionKey p) (pyVersionKey q) = true := by
  unfold keyLt
  rw [h9, h10]
  simp [natListLt]

theorem keyLt_empty_lt_digits (p q : String) (hp : (pyVersionKey p).1 = [])
    (hq : (pyVersionKey q).1 ≠ []) :
    keyLt (pyVersionKey p) (pyVersionKey q) = true := by
  unfold keyLt
  rw [hp]
  cases hq2 : (pyVersionKey q).1 with
  | nil => exact absurd hq2 hq
  | cons n ns => simp [natListLt]

theorem keyLt_tie (p q : String) (h : (pyVersionKey p).1 = (pyVersionKey q).1) :
    keyLt (pyVersionKey p) (pyVersionKey q) =
      charListLt (pyVersionKey p).2.data (pyVersionKey q).2.data := by
  unfold keyLt
  rw [h, natListLt_irrefl]
  simp

instance : DecidableEq (Except String (String × List String)) := fun a b =>
  match a, b with
  | .error x, .error y =>
    if h : x = y then Decidable.isTrue (by rw [h]) else Decidable.isFalse (by simp [h])
  | .ok x, .ok y =>
    if h : x = y then Decidable.isTrue (by rw [h]) else Decidable.isFalse (by simp [h])
  | .error _, .ok _ => Decidable.isFalse (by simp)
  | .ok _, .error _ => Decidable.isFalse (by simp)

/-! ### The claims -/

/-- C1: in every run, each unique bug identifier appears at most once in
the output, at the position of its first occurrence in descriptor scan
order (descriptors in ascending version-key order, bugs in
within-descriptor order), including repeats inside a single descriptor:
the bug lines of the old variant's report are exactly the
first-occurrence-deduplicated concatenation of the scanned bug pairs
(whose keys are pairwise distinct), and the minimal variant maps the
concrete input [A, B] then [B, C] to the bug lines A, B, C. -/
theorem claim_C1_dedup_first_occurrence :
    (∀ (dir : List (String × ZipFile)) (o : Option String) (today : String) (w : Bool),
      (process_all_xml_files dir o today w).lines.filter isBugLine =
        (specDedupRem [] (specAllPairs (process_zip_files dir).1)).map
          (fun p => bugLine p.1 p.2) ∧
      ((specDedupRem [] (specAllPairs (process_zip_files dir).1)).map Prod.fst).Nodup) ∧
    parse_bugs_from_zip
      [("u_RU_1.zip", .ok [("inventory.xml",
          .doc (some (some "P1")) [⟨some "A", some "da"⟩, ⟨some "B", some "db"⟩])]),
       ("u_RU_2.zip", .ok [("inventory.xml",
          .doc (some (some "P2")) [⟨some "B", some "db"⟩, ⟨some "C", some "dc"⟩])])]
      none "20260101" =
      .ok ("Fixed_Bug_20260101.txt",
        ["### RU 1\n", " *** P1\n", "     BUG A - da\n", "     BUG B - db\n",
         "### RU 2\n", " *** P2\n", "     BUG C - dc\n"]) := by
  constructor
  · intro dir o today w
    refine ⟨?_, specDedupRem_keys_nodup _ []⟩
    rw [old_lines_eq, filter_isBug_specEmitOld]
  · decide

/-- C2: the claim that a corrupt archive is always skipped with a
diagnostic is false for the minimal variant: opening the corrupt archive
raises `BadZipFile` and the run aborts, the remaining valid archive
unprocessed. -/
theorem claim_C2_counterexample :
    parse_bugs_from_zip
      [("broken.zip", ZipFile.corrupt),
       ("ok_RU_1.zip", .ok [("inventory.xml", .doc (some (some "P")) [⟨some "A", some "d"⟩])])]
      none "20260101" = .error "BadZipFile" := by decide

/-- C2 (amended): in the old variant the scanner yields exactly the
descriptor members of the valid archives in sorted order — corrupt
archives contribute nothing except one warning diagnostic each, and the
scan continues past them to completion. -/
theorem claim_C2_amended_old_variant_skips :
    ∀ dir : List (String × ZipFile),
      process_zip_files dir = (specFound (sortByKey dir), specScanDiags (sortByKey dir)) :=
  process_zip_files_spec

/-- C3: the claim that a malformed descriptor never raises past the
parser is false for the minimal variant, which parses inline with no
handler: the parse error propagates and aborts the run. -/
theorem claim_C3_counterexample :
    parse_bugs_from_zip
      [("m_RU_1.zip", .ok [("inventory.xml", XmlDoc.malformed "mismatched tag")])]
      none "20260101" = .error "mismatched tag" := by decide

/-- C3 (amended): the old variant's descriptor parser catches the
well-formedness error, emits exactly one diagnostic and returns the empty
patch-description string with an empty bug list; being a total function
it raises nothing. -/
theorem claim_C3_amended_old_parser_catches :
    ∀ e sn : String,
      parse_bugs_from_xml_content (.malformed e) sn =
        ((some "", []),
         ["Error: XML parsing failed for " ++ (if sn = "" then "XML" else sn) ++ " - " ++ e]) := by
  intro e sn
  rfl

/-- C4: the claim that every descriptor with non-empty patch text emits a
header and description line is false for the old variant: a descriptor
with patch text "Desc5" and zero bug elements emits nothing. -/
theorem claim_C4_counterexample :
    (process_all_xml_files
      [("c_RU_5.zip", .ok [("inventory.xml", .doc (some (some "Desc5")) [])])]
      none "20260101" true).lines = [] := by decide

/-- C4 (amended): in the minimal variant a descriptor with truthy patch
text emits a header line and a description line followed only by bug
lines — regardless of the bug list and of the seen-set — and a falsy
patch text emits nothing; the old variant additionally requires a
non-empty extracted bug list, leaving the output untouched otherwise. -/
theorem claim_C4_amended_header_emission :
    (∀ (zf : String) (pd : Option (Option String)) (bugs : List BugElem) (st : NewState)
        (pt : String), patchTextOf pd = some pt → pt ≠ "" →
      ∃ st' bl, processInvNew zf st (.doc pd bugs) = .ok st' ∧
        (∀ l ∈ bl, isBugLine l = true) ∧
        st'.output_lines = st.output_lines ++
          headerLine (afterMarker (splitextRoot (basename zf))) :: descLine pt :: bl) ∧
    (∀ (zf : String) (pd : Option (Option String)) (bugs : List BugElem) (st : NewState),
      pyTruthy (patchTextOf pd) = false → processInvNew zf st (.doc pd bugs) = .ok st) ∧
    (∀ (st : OldState) (item : String × XmlDoc × String),
      (parse_bugs_from_xml_content item.2.1 (item.1 ++ "/inventory.xml")).1.2 = [] →
      (processXmlOld st item).output_lines = st.output_lines) := by
  refine ⟨processInvNew_truthy, processInvNew_falsy, ?_⟩
  intro st item h
  have hg : gateOf item = false := by
    simp [gateOf, h]
  have := (processXmlOld_spec st item).1
  rw [hg] at this
  simpa using this

/-- C4 witness: the minimal variant emits the header/description block
for a zero-bug descriptor with patch text "Txt". -/
theorem claim_C4_witness :
    ∃ st' bl, processInvNew "w_RU_9.zip" initNew (.doc (some (some "Txt")) []) = .ok st' ∧
      (∀ l ∈ bl, isBugLine l = true) ∧
      st'.output_lines = initNew.output_lines ++
        headerLine (afterMarker (splitextRoot (basename "w_RU_9.zip"))) ::
          descLine "Txt" :: bl :=
  claim_C4_amended_header_emission.1 "w_RU_9.zip" (some (some "Txt")) [] initNew "Txt" rfl
    (by decide)

/-- C5: the archive comparator orders by the digit-run integer sequences
of the version tokens with the token string as tie-breaker: a (9) token
sorts before a (10) token, a digit-free (empty-sequence) token sorts
before any token with digits, and equal sequences fall back to the
code-point order of the tokens. -/
theorem claim_C5_version_key_order :
    (∀ p q : String, (pyVersionKey p).1 = [9] → (pyVersionKey q).1 = [10] →
      keyLt (pyVersionKey p) (pyVersionKey q) = true) ∧
    (∀ p q : String, (pyVersionKey p).1 = [] → (pyVersionKey q).1 ≠ [] →
      keyLt (pyVersionKey p) (pyVersionKey q) = true) ∧
    (∀ p q : String, (pyVersionKey p).1 = (pyVersionKey q).1 →
      keyLt (pyVersionKey p) (pyVersionKey q) =
        charListLt (pyVersionKey p).2.data (pyVersionKey q).2.data) :=
  ⟨keyLt_nine_ten, keyLt_empty_lt_digits, keyLt_tie⟩

/-- C5 witness: the archive named with version token "9" compares before
the one with token "10". -/
theorem claim_C5_witness :
    (pyVersionKey "db_RU_9.zip").1 = [9] ∧ (pyVersionKey "db_RU_10.zip").1 = [10] ∧
    keyLt (pyVersionKey "db_RU_9.zip") (pyVersionKey "db_RU_10.zip") = true :=
  ⟨by decide, by decide,
    claim_C5_version_key_order.1 "db_RU_9.zip" "db_RU_10.zip" (by decide) (by decide)⟩

/-- C6: the claim that a bug entry lacking an identifier attribute
produces no output line is false for the minimal variant: it renders the
entry with the literal text `None` as identifier. -/
theorem claim_C6_counterexample :
    parse_bugs_from_zip
      [("z_RU_3.zip", .ok [("inventory.xml", .doc (some (some "PX")) [⟨none, some "lost"⟩])])]
      none "20260101" =
      .ok ("Fixed_Bug_20260101.txt", ["### RU 3\n", " *** PX\n", "     BUG None - lost\n"]) := by
  decide

/-- C6 (amended): in the old variant a bug entry without identifier
contributes nothing — the parse yields the same patch text and bug list
with or without the entry, and the same diagnostics whenever the
remaining entry list is non-empty — while an entry with identifier but no
description attribute is kept with the empty string as description. -/
theorem claim_C6_amended_old_drops_numberless :
    (∀ (pd : Option (Option String)) (sn : String) (pre post : List BugElem)
        (d : Option String),
      (parse_bugs_from_xml_content (.doc pd (pre ++ ⟨none, d⟩ :: post)) sn).1 =
        (parse_bugs_from_xml_content (.doc pd (pre ++ post)) sn).1) ∧
    (∀ (pd : Option (Option String)) (sn : String) (pre post : List BugElem)
        (d : Option String), pre ++ post ≠ [] →
      parse_bugs_from_xml_content (.doc pd (pre ++ ⟨none, d⟩ :: post)) sn =
        parse_bugs_from_xml_content (.doc pd (pre ++ post)) sn) ∧
    (∀ (pd : Option (Option String)) (sn : String) (pre post : List BugElem) (n : String),
      n ≠ "" →
      (parse_bugs_from_xml_content (.doc pd (pre ++ ⟨some n, none⟩ :: post)) sn).1.2 =
        pre.filterMap keepBug ++ (n, "") :: post.filterMap keepBug) := by
  refine ⟨?_, ?_, ?_⟩
  · intro pd sn pre post d
    by_cases hpp : pre ++ post = []
    · obtain ⟨hpre, hpost⟩ := List.append_eq_nil.mp hpp
      subst hpre
      subst hpost
      simp [parse_bugs_from_xml_content, keepBug]
    · simp [parse_bugs_from_xml_content, hpp, keepBug]
  · intro pd sn pre post d hpp
    simp [parse_bugs_from_xml_content, hpp, keepBug]
  · intro pd sn pre post n hn
    simp [parse_bugs_from_xml_content, keepBug, hn]

/-- C6 witness: dropping the identifier-less entry from a two-entry list
leaves the old parser's result unchanged. -/
theorem claim_C6_witness :
    parse_bugs_from_xml_content
        (.doc (some (some "T")) ([⟨some "A", some "d"⟩] ++ ⟨none, some "x"⟩ :: [])) "src" =
      parse_bugs_from_xml_content (.doc (some (some "T")) ([⟨some "A", some "d"⟩] ++ [])) "src" :=
  claim_C6_amended_old_drops_numberless.2.1 (some (some "T")) "src" [⟨some "A", some "d"⟩] []
    (some "x") (by decide)

/-- C7: with no explicit output name, the chosen name is the fixed prefix
plus the sub-version captured by the last match of the label phrase
across the processed patch-description texts in scan order plus the date,
or the fallback fixed token with the date when no text matched; no name
is chosen when nothing was scanned.  In the minimal variant, a concrete
run with two matching texts picks the later (19.21.0.0) sub-version. -/
theorem claim_C7_default_output_name :
    (∀ (dir : List (String × ZipFile)) (today : String) (w : Bool),
      (process_all_xml_files dir none today w).outName =
        (if (process_zip_files dir).1.isEmpty then none
         else some
          (match ((specTexts (process_zip_files dir).1).filterMap findDbVersion).getLast? with
           | some v => "Fixed_Bug_For_" ++ v ++ "_" ++ today ++ ".txt"
           | none => "Fixed_Bug_" ++ today ++ ".txt"))) ∧
    parse_bugs_from_zip
      [("v_RU_1.zip", .ok [("inventory.xml",
          .doc (some (some "Database Release Update : 19.20.0.0")) [])]),
       ("v_RU_2.zip", .ok [("inventory.xml",
          .doc (some (some "Database Release Update : 19.21.0.0")) [])])]
      none "20260101" =
      .ok ("Fixed_Bug_For_19.21.0.0_20260101.txt",
        ["### RU 1\n", " *** Database Release Update : 19.20.0.0\n",
         "### RU 2\n", " *** Database Release Update : 19.21.0.0\n"]) := by
  constructor
  · intro dir today w
    rw [old_name_eq]
    by_cases h : (process_zip_files dir).1.isEmpty
    · simp [h]
    · simp only [h, Bool.false_eq_true, if_false]
      cases hv : ((specTexts (process_zip_files dir).1).filterMap findDbVersion).getLast? <;>
        simp [resolveName, overrideOpt, hv]
  · decide

/-- C8: the claim that the exit status is non-zero only on an
output-write failure is false for the minimal variant: a corrupt archive
aborts the interpreter with status 1 although the write (modelled as
succeeding) never failed. -/
theorem claim_C8_counterexample :
    parse_bugs_main [("corrupt_one.zip", ZipFile.corrupt)] none "20260101" true = 1 := by decide

/-- C8 (amended): the old variant exits non-zero exactly when a write was
attempted (descriptors were found) and failed, and in that case the
failure diagnostic is the last stderr message; all other runs, including
empty directories, exit 0. -/
theorem claim_C8_amended_old_exit_status :
    ∀ (dir : List (String × ZipFile)) (o : Option String) (today : String) (w : Bool),
      ((process_all_xml_files dir o today w).exitCode ≠ 0 ↔
        ((process_zip_files dir).1.isEmpty = false ∧ w = false)) ∧
      ((process_all_xml_files dir o today w).exitCode ≠ 0 →
        (process_all_xml_files dir o today w).diags.getLast? =
          some "Warning: Failed to save file - IOError") := by
  intro dir o today w
  constructor
  · rw [old_exit_eq]
    by_cases h : (process_zip_files dir).1.isEmpty <;> cases w <;> simp [h]
  · intro hne
    rw [old_exit_eq] at hne
    have hw : w = false ∧ (process_zip_files dir).1.isEmpty = false := by
      by_cases h : (process_zip_files dir).1.isEmpty <;> cases w <;> simp [h] at hne ⊢
    obtain ⟨hw1, hw2⟩ := hw
    subst hw1
    exact old_diags_fail dir o today hw2

/-- C8 witness: a failing write on a one-descriptor directory ends the
diagnostics with the failure message. -/
theorem claim_C8_witness :
    (process_all_xml_files
      [("g_RU_2.zip", .ok [("inventory.xml", .doc (some (some "G")) [⟨some "X", none⟩])])]
      none "20260101" false).diags.getLast? = some "Warning: Failed to save file - IOError" :=
  (claim_C8_amended_old_exit_status _ none "20260101" false).2 (by decide)

/-- C9: two runs over the same directory listing differing only in the
current date produce identical report content in both variants, and the
auto-generated name differs only in the date slot before the fixed
extension. -/
theorem claim_C9_determinism :
    ∀ (dir : List (String × ZipFile)) (o : Option String) (t1 t2 : String) (w : Bool),
      (parse_bugs_from_zip dir o t1).map Prod.snd =
        (parse_bugs_from_zip dir o t2).map Prod.snd ∧
      (process_all_xml_files dir o t1 w).lines = (process_all_xml_files dir o t2 w).lines ∧
      (∃ base : String, ∀ t : String,
        (process_all_xml_files dir none t w).outName =
          if (process_zip_files dir).1.isEmpty then none else some (base ++ t ++ ".txt")) := by
  intro dir o t1 t2 w
  refine ⟨parse_bugs_lines_today_free dir o t1 t2, ?_, ?_⟩
  · rw [old_lines_eq, old_lines_eq]
  · refine ⟨match ((specTexts (process_zip_files dir).1).filterMap findDbVersion).getLast? with
      | some v => "Fixed_Bug_For_" ++ v ++ "_"
      | none => "Fixed_Bug_", ?_⟩
    intro t
    rw [old_name_eq]
    by_cases h : (process_zip_files dir).1.isEmpty
    · simp [h]
    · simp only [h, Bool.false_eq_true, if_false]
      cases hv : ((specTexts (process_zip_files dir).1).filterMap findDbVersion).getLast? <;>
        simp [resolveName, overrideOpt, hv, String.append_assoc]

/-- C10: every line of the report ends with a newline, every header line
is immediately followed by exactly one description line, and a bug line
only ever appears after some header line. -/
theorem claim_C10_line_invariants :
    ∀ (dir : List (String × ZipFile)) (o : Option String) (today : String) (w : Bool),
      (∀ l ∈ (process_all_xml_files dir o today w).lines, strEnds "\n" l = true) ∧
      (∀ pre l post, (process_all_xml_files dir o today w).lines = pre ++ l :: post →
        isHeaderLine l = true →
        ∃ t post', post = t :: post' ∧ isDescLine t = true ∧
          (∀ u post'', post' = u :: post'' → isDescLine u = false)) ∧
      (∀ pre l post, (process_all_xml_files dir o today w).lines = pre ++ l :: post →
        isBugLine l = true → ∃ x ∈ pre, isHeaderLine x = true) := by
  intro dir o today w
  have hc : Chunked (process_all_xml_files dir o today w).lines := by
    rw [old_lines_eq]
    exact chunked_specEmitOld _ []
  exact ⟨chunked_newlines hc, fun pre l post => chunked_header_desc hc pre l post,
    fun pre l post => chunked_bug_after_header hc pre l post⟩

/-- C10 witness: in a concrete one-descriptor run the header line is
followed by exactly one description line. -/
theorem claim_C10_witness :
    ∃ t post', [" *** K\n", "     BUG Q - qq\n"] = t :: post' ∧ isDescLine t = true ∧
      (∀ u post'', post' = u :: post'' → isDescLine u = false) :=
  (claim_C10_line_invariants
    [("k_RU_4.zip", ZipFile.ok
      [("inventory.xml", XmlDoc.doc (some (some "K")) [⟨some "Q", some "qq"⟩])])]
    none "20260101" true).2.1
    [] "### RU 4\n" [" *** K\n", "     BUG Q - qq\n"] (by decide) (by decide)

end OracleBugs
